import Mathlib

/-!
Verification of the kyrokrypt adaptive position protection pipeline.

The development shallowly embeds the two core scripts:

* `sizet2.py` : the poll-based protection Order Manager (Bollinger band
  computation, order-plan selection across timeframes, order placement
  gated by the orders_placed flag, launch of the trigger watcher).
* `mainnet.py` : the Trigger Watcher (candle-stream driven escalation to
  a stop-market exit order, reconnect loop, cached position quantity).

Network effects (REST calls, the websocket stream) are modelled as oracle
inputs: each poll tick or candle event carries the data the exchange would
have returned, and the embedded transition functions record the outgoing
gateway calls they make, so that order placement, cancellation and
position reads become observable traces.

Prices and quantities are embedded as rationals.  Python Decimal floor
division (used by round_step in sizet2.py) and Decimal quantize with
ROUND_DOWN (used by round_price / round_qty in mainnet.py) both truncate
toward zero, which `rat_trunc` mirrors.  The band computation of
`bollinger_bands` needs a square root and is embedded over the reals.
-/

/-- Truncation toward zero of a rational, the semantics of Python Decimal
floor division and of Decimal quantize with ROUND_DOWN. -/
def rat_trunc (q : ℚ) : ℤ := if 0 ≤ q then ⌊q⌋ else ⌈q⌉

/-- Embedding of round_step from sizet2.py: Decimal floor division of
value by step, times step.  The same function also serves for round_price
and round_qty in mainnet.py, whose ROUND_DOWN quantization to a tick or
step multiple computes the same truncated multiple. -/
def round_step (value step : ℚ) : ℚ := (rat_trunc (value / step) : ℚ) * step

lemma rat_trunc_gt_sub_one (q : ℚ) : q - 1 < (rat_trunc q : ℚ) := by
  unfold rat_trunc
  split
  · exact_mod_cast Int.sub_one_lt_floor q
  · have h := Int.le_ceil q
    linarith

lemma rat_trunc_lt_add_one (q : ℚ) : (rat_trunc q : ℚ) < q + 1 := by
  unfold rat_trunc
  split
  · have h := Int.floor_le q
    linarith
  · exact_mod_cast Int.ceil_lt_add_one q

lemma rat_trunc_le_self {q : ℚ} (hq : 0 ≤ q) : (rat_trunc q : ℚ) ≤ q := by
  unfold rat_trunc
  rw [if_pos hq]
  exact Int.floor_le q

lemma rat_trunc_mono {a b : ℚ} (h : a ≤ b) : rat_trunc a ≤ rat_trunc b := by
  unfold rat_trunc
  by_cases ha : 0 ≤ a
  · rw [if_pos ha, if_pos (le_trans ha h)]
    exact Int.floor_le_floor h
  · rw [if_neg ha]
    by_cases hb : 0 ≤ b
    · rw [if_pos hb]
      calc ⌈a⌉ ≤ 0 := Int.ceil_le.mpr (by exact_mod_cast le_of_not_le ha)
        _ ≤ ⌊b⌋ := Int.floor_nonneg.mpr hb
    · rw [if_neg hb]
      exact Int.ceil_mono h

lemma sub_lt_round_step (v s : ℚ) (hs : 0 < s) : v - s < round_step v s := by
  unfold round_step
  have h := rat_trunc_gt_sub_one (v / s)
  have h2 : (v / s - 1) * s < (rat_trunc (v / s) : ℚ) * s :=
    mul_lt_mul_of_pos_right h hs
  have h3 : (v / s - 1) * s = v - s := by
    field_simp
  linarith

lemma round_step_lt_add (v s : ℚ) (hs : 0 < s) : round_step v s < v + s := by
  unfold round_step
  have h := rat_trunc_lt_add_one (v / s)
  have h2 : (rat_trunc (v / s) : ℚ) * s < (v / s + 1) * s :=
    mul_lt_mul_of_pos_right h hs
  have h3 : (v / s + 1) * s = v + s := by
    field_simp
  linarith

lemma round_step_le_self {v : ℚ} (s : ℚ) (hs : 0 < s) (hv : 0 ≤ v) :
    round_step v s ≤ v := by
  unfold round_step
  have hq : 0 ≤ v / s := div_nonneg hv hs.le
  have h := rat_trunc_le_self hq
  have h2 : (rat_trunc (v / s) : ℚ) * s ≤ (v / s) * s :=
    mul_le_mul_of_nonneg_right h hs.le
  have h3 : (v / s) * s = v := by
    field_simp
  linarith

lemma round_step_mono {a b : ℚ} (s : ℚ) (hs : 0 < s) (h : a ≤ b) :
    round_step a s ≤ round_step b s := by
  unfold round_step
  have hd : a / s ≤ b / s := (div_le_div_iff_of_pos_right hs).mpr h
  have ht : (rat_trunc (a / s) : ℚ) ≤ (rat_trunc (b / s) : ℚ) := by
    exact_mod_cast rat_trunc_mono hd
  exact mul_le_mul_of_nonneg_right ht hs.le

/-! ## sizet2.py data model -/

/-- The fixed timeframe priority list scanned by sizet2.py. -/
def TIMEFRAMES : List String := ["1m", "3m", "5m", "15m", "30m", "1h"]

/-- A position snapshot as returned by get_current_position in sizet2.py:
side is the literal string LONG or SHORT, entry price and positive
quantity.  The upper-casing applied by compute_orders is the identity on
these produced values, so side is compared directly. -/
structure Position where
  side : String
  entry_price : ℚ
  quantity : ℚ
deriving DecidableEq, Repr

/-- The order dictionary built by compute_orders in sizet2.py, flattened. -/
structure Orders where
  stop_loss_limit : ℚ
  stop_loss_qty : ℚ
  take_profit_trigger : ℚ
  take_profit_limit : ℚ
  take_profit_qty : ℚ
  x_percent : ℚ
deriving DecidableEq, Repr

/-- Embedding of compute_orders from sizet2.py, lines 116 to 136.  The
module-level globals tick_size and step_size are passed explicitly. -/
def compute_orders (position : Position) (middle upper lower : ℚ)
    (tick_size step_size : ℚ) : Orders :=
  let diff_upper := |upper - middle| / middle * 100
  let diff_lower := |middle - lower| / middle * 100
  let x := max diff_upper diff_lower
  let entry := position.entry_price
  let qty := round_step position.quantity step_size
  if position.side = "LONG" then
    { stop_loss_limit := round_step (entry - (x / 3) / 100 * entry) tick_size
      stop_loss_qty := qty
      take_profit_trigger := round_step (entry + (x - 1/100) / 100 * entry) tick_size
      take_profit_limit := round_step (entry + x / 100 * entry) tick_size
      take_profit_qty := qty
      x_percent := x }
  else
    { stop_loss_limit := round_step (entry + (x / 3) / 100 * entry) tick_size
      stop_loss_qty := qty
      take_profit_trigger := round_step (entry - (x - 1/100) / 100 * entry) tick_size
      take_profit_limit := round_step (entry - x / 100 * entry) tick_size
      take_profit_qty := qty
      x_percent := x }

/-! ## mainnet.py derived prices -/

/-- Embedding of the escalation trigger price computed at the top of
mainnet.py, lines 38 to 43, from the handed-over entry price and width
percent.  The side string arrives already upper-cased by sys.argv
processing. -/
def trigger_price (side : String) (entry_price x_percent : ℚ) : ℚ :=
  if side = "LONG" then
    entry_price + (55/100 * x_percent / 100) * entry_price
  else
    entry_price - (55/100 * x_percent / 100) * entry_price

/-- Embedding of the secondary stop_limit price of mainnet.py, computed
at coefficient 0.25 but never used downstream. -/
def stop_limit_price (side : String) (entry_price x_percent : ℚ) : ℚ :=
  if side = "LONG" then
    entry_price + (25/100 * x_percent / 100) * entry_price
  else
    entry_price - (25/100 * x_percent / 100) * entry_price

/-! ## Order Manager (the main loop of sizet2.py)

One iteration of the while loop is a poll tick.  Exchange responses are
oracle inputs; outgoing gateway calls are recorded as a trace. -/

/-- Outgoing gateway calls made by the Order Manager during one tick. -/
inductive MCall where
  | fetch (tf : String)
  | getPos
  | cancelAll
  | placeStopLimit (side : String) (qty price : ℚ)
  | placeLimit (side : String) (qty price : ℚ)
  | spawnWatcher (entry x : ℚ) (side : String)
deriving DecidableEq, Repr

/-- Result of get_current_position in sizet2.py: the string ERROR on a
failed or malformed query, None when flat, or a position snapshot. -/
inductive PosResp where
  | err
  | flat
  | opened (p : Position)
deriving DecidableEq, Repr

/-- Oracle data consumed by one poll tick: the position response, the
per-timeframe result of get_closes plus bollinger_bands (none when the
fetch failed or returned fewer than 200 candles, otherwise middle, upper,
lower), and the exchange outcome of each of the two protective order
placements.  The placement outcomes are recorded here because the
exchange decides them, but place_stop_limit_order and place_limit_order
in sizet2.py only print the response, so the transition cannot depend on
them. -/
structure MgrOracle where
  pos : PosResp
  bands : String → Option (ℚ × ℚ × ℚ)
  stopAccepted : Bool
  tpAccepted : Bool

/-- The second timeframe scan of the main loop, sizet2.py lines 188 to
196: fetch closes per timeframe in order, skip a timeframe when the
bands are absent or the middle is zero (the falsy test if not middle),
otherwise build the candidate orders and stop at the first whose
x_percent is at least 2.  Returns the chosen orders, if any, together
with the fetch calls issued. -/
def scan_plan (p : Position) (bands : String → Option (ℚ × ℚ × ℚ))
    (tick_size step_size : ℚ) : List String → Option Orders × List MCall
  | [] => (none, [])
  | tf :: rest =>
    match bands tf with
    | none =>
      let r := scan_plan p bands tick_size step_size rest
      (r.1, MCall.fetch tf :: r.2)
    | some (m, u, l) =>
      if m = 0 then
        let r := scan_plan p bands tick_size step_size rest
        (r.1, MCall.fetch tf :: r.2)
      else
        let o := compute_orders p m u l tick_size step_size
        if 2 ≤ o.x_percent then (some o, [MCall.fetch tf])
        else
          let r := scan_plan p bands tick_size step_size rest
          (r.1, MCall.fetch tf :: r.2)

/-- One poll tick of the main loop of sizet2.py, lines 168 to 222, as a
function of the orders_placed flag and the oracle data, returning the new
flag and the trace of gateway calls.  The opening print-only band scan of
lines 169 to 177 contributes its closes fetches to the trace and nothing
else. -/
def managerTick (ordersPlaced : Bool) (o : MgrOracle)
    (tick_size step_size : ℚ) : Bool × List MCall :=
  let scan1 : List MCall := TIMEFRAMES.map MCall.fetch
  match o.pos with
  | PosResp.err => (ordersPlaced, scan1 ++ [MCall.getPos])
  | PosResp.flat =>
    if ordersPlaced then (false, scan1 ++ [MCall.getPos, MCall.cancelAll])
    else (ordersPlaced, scan1 ++ [MCall.getPos])
  | PosResp.opened p =>
    if ordersPlaced then (ordersPlaced, scan1 ++ [MCall.getPos])
    else
      let r := scan_plan p o.bands tick_size step_size TIMEFRAMES
      match r.1 with
      | none => (false, scan1 ++ [MCall.getPos, MCall.cancelAll] ++ r.2)
      | some c =>
        let side_sl := if p.side = "LONG" then "SELL" else "BUY"
        (true, scan1 ++ [MCall.getPos, MCall.cancelAll] ++ r.2 ++
          [MCall.placeStopLimit side_sl c.stop_loss_qty c.stop_loss_limit,
           MCall.placeLimit side_sl c.take_profit_qty c.take_profit_limit,
           MCall.spawnWatcher p.entry_price c.x_percent p.side])

/-- Run of the poll loop over a list of tick oracles, concatenating the
traces. -/
def managerRun (tick_size step_size : ℚ) : Bool → List MgrOracle → Bool × List MCall
  | st, [] => (st, [])
  | st, o :: os =>
    let t := managerTick st o tick_size step_size
    let r := managerRun tick_size step_size t.1 os
    (r.1, t.2 ++ r.2)

/-- Number of ticks on which the flag moved from unset to set, the
transitions of the IDLE to PROTECTED kind. -/
def mgrEntries (tick_size step_size : ℚ) : Bool → List MgrOracle → ℕ
  | _, [] => 0
  | st, o :: os =>
    let st' := (managerTick st o tick_size step_size).1
    (if st = false ∧ st' = true then 1 else 0) +
      mgrEntries tick_size step_size st' os

def isStopLimitCall : MCall → Bool
  | MCall.placeStopLimit _ _ _ => true
  | _ => false

def isLimitCall : MCall → Bool
  | MCall.placeLimit _ _ _ => true
  | _ => false

def isGetPosCall : MCall → Bool
  | MCall.getPos => true
  | _ => false

def isCancelCall : MCall → Bool
  | MCall.cancelAll => true
  | _ => false

/-- Count of stop-limit placement calls in a trace. -/
def countSL (cs : List MCall) : ℕ := cs.countP isStopLimitCall

/-- Count of take-profit limit placement calls in a trace. -/
def countTP (cs : List MCall) : ℕ := cs.countP isLimitCall

/-- Count of position reads in a trace. -/
def countGetPos (cs : List MCall) : ℕ := cs.countP isGetPosCall

/-- Count of cancel-all calls in a trace. -/
def countCancel (cs : List MCall) : ℕ := cs.countP isCancelCall

/-! ## Trigger Watcher (mainnet.py)

Each closed-candle event carries the close price, the position query
response for that event (none when the query raised, in which case
get_position returns the cached global position_qty), and whether the
exchange would answer a stop-market placement with status 200 or 201. -/

/-- A closed-candle event together with the oracle data its handling
consumes. -/
structure WEvent where
  close : ℚ
  pos : Option ℚ
  accepted : Bool
deriving DecidableEq, Repr

/-- Outgoing calls of the watcher. -/
inductive WCall where
  | queryPos
  | stopMarket (side : String) (qty stop : ℚ)
deriving DecidableEq, Repr

/-- Mutable globals of mainnet.py: the cached position_qty and the
stop_requested flag (set only on an accepted stop-market order). -/
structure WState where
  cache : ℚ
  stopRequested : Bool
deriving DecidableEq, Repr

/-- Result of handling one candle event: new globals, calls made, and
whether the observed-flat branch of on_message ran (the branch that
prints Position closed, Exiting and closes the socket). -/
structure WStep where
  state : WState
  calls : List WCall
  flatExit : Bool
deriving DecidableEq, Repr

/-- Handling of one closed-candle event, mainnet.py on_message lines 151
to 178, combined with the reconnect loop of run_bot lines 193 to 206:
once stop_requested is set the loop has exited and no further event is
processed; otherwise ws.close only ends the current connection and the
loop reconnects, so the next event is handled with the same globals. -/
def watcherStep (tick_size step_size trigger : ℚ) (st : WState)
    (ev : WEvent) : WStep :=
  if st.stopRequested then { state := st, calls := [], flatExit := false }
  else
    let observed := ev.pos.getD st.cache
    if observed = 0 then
      { state := st, calls := [WCall.queryPos], flatExit := true }
    else if 0 < observed ∧ trigger < ev.close then
      { state := { cache := observed, stopRequested := ev.accepted },
        calls := [WCall.queryPos,
          WCall.stopMarket "SELL" (round_step observed step_size)
            (round_step trigger tick_size)],
        flatExit := false }
    else if observed < 0 ∧ ev.close < trigger then
      { state := { cache := observed, stopRequested := ev.accepted },
        calls := [WCall.queryPos,
          WCall.stopMarket "BUY" (round_step (-observed) step_size)
            (round_step trigger tick_size)],
        flatExit := false }
    else
      { state := { cache := observed, stopRequested := st.stopRequested },
        calls := [WCall.queryPos], flatExit := false }

/-- Run of the watcher over a list of candle events. -/
def watcherRun (tick_size step_size trigger : ℚ) :
    WState → List WEvent → WState × List WCall
  | st, [] => (st, [])
  | st, ev :: evs =>
    let s1 := watcherStep tick_size step_size trigger st ev
    let r := watcherRun tick_size step_size trigger s1.state evs
    (r.1, s1.calls ++ r.2)

/-- Embedding of run_bot in mainnet.py: an initial position query against
the zero-initialized position_qty cache (so a raising initial query
observes zero), early return when flat, otherwise event processing. -/
def run_bot (tick_size step_size trigger : ℚ) (initResp : Option ℚ)
    (events : List WEvent) : WState × List WCall :=
  let q0 := initResp.getD 0
  if q0 = 0 then ({ cache := 0, stopRequested := false }, [WCall.queryPos])
  else
    let r := watcherRun tick_size step_size trigger
      { cache := q0, stopRequested := false } events
    (r.1, WCall.queryPos :: r.2)

def isStopMarketCall : WCall → Bool
  | WCall.stopMarket _ _ _ => true
  | _ => false

def isQueryCall : WCall → Bool
  | WCall.queryPos => true
  | _ => false

/-- Count of stop-market order calls in a watcher trace. -/
def countStops (cs : List WCall) : ℕ := cs.countP isStopMarketCall

/-- Count of position queries in a watcher trace. -/
def countQueries (cs : List WCall) : ℕ := cs.countP isQueryCall

/-- Whether an event would be seen as crossing the escalation trigger,
judging by the position quantity its own successful query reports. -/
def crossesB (trigger : ℚ) (ev : WEvent) : Bool :=
  match ev.pos with
  | some q =>
    decide ((0 < q ∧ trigger < ev.close) ∨ (q < 0 ∧ ev.close < trigger))
  | none => false

/-! ## Bollinger bands (sizet2.py lines 71 to 79)

The band computation takes a square root, so it is embedded over the
reals.  The mean and sample standard deviation model the semantics of
statistics.mean and statistics.stdev from the Python standard library. -/

/-- Arithmetic mean of a list, the semantics of statistics.mean. -/
noncomputable def listMean (l : List ℝ) : ℝ := l.sum / l.length

/-- Sample variance with Bessel correction, dividing by n minus 1, the
semantics of the square of statistics.stdev. -/
noncomputable def sampleVariance (l : List ℝ) : ℝ :=
  (l.map (fun v => (v - listMean l) ^ 2)).sum / (l.length - 1)

/-- Sample standard deviation, the semantics of statistics.stdev. -/
noncomputable def sampleStdev (l : List ℝ) : ℝ := Real.sqrt (sampleVariance l)

/-- Embedding of bollinger_bands from sizet2.py with its default
arguments period 200 and std_dev 2, which are the only ones used: absent
below 200 closes, otherwise middle, upper, lower derived from the most
recent 200 closes. -/
noncomputable def bollinger_bands (closes : List ℝ) : Option (ℝ × ℝ × ℝ) :=
  if closes.length < 200 then none
  else
    let recent := closes.drop (closes.length - 200)
    let middle := listMean recent
    let sd := sampleStdev recent
    some (middle, middle + 2 * sd, middle - 2 * sd)

/-- C6: for every candle close-price sequence, bollinger_bands returns
absent on fewer than 200 values, and otherwise returns the band whose
middle is the arithmetic mean of the most recent 200 closes, whose
half-width is twice the sample standard deviation of those closes, with
upper equal to middle plus the half-width and lower equal to middle minus
the half-width, so that lower is at most middle and middle at most upper
on every non-absent result. -/
theorem C6_bollinger_bands_spec (closes : List ℝ) :
    (closes.length < 200 → bollinger_bands closes = none) ∧
    (200 ≤ closes.length →
      (closes.drop (closes.length - 200)).length = 200 ∧
      bollinger_bands closes =
        some (listMean (closes.drop (closes.length - 200)),
          listMean (closes.drop (closes.length - 200)) +
            2 * sampleStdev (closes.drop (closes.length - 200)),
          listMean (closes.drop (closes.length - 200)) -
            2 * sampleStdev (closes.drop (closes.length - 200))) ∧
      ∀ m u l, bollinger_bands closes = some (m, u, l) → l ≤ m ∧ m ≤ u) := by
  constructor
  · intro h
    simp [bollinger_bands, h]
  · intro h
    have hlt : ¬ closes.length < 200 := by omega
    refine ⟨by simp [List.length_drop]; omega, by simp [bollinger_bands, hlt], ?_⟩
    intro m u l hb
    have hsd : 0 ≤ sampleStdev (closes.drop (closes.length - 200)) :=
      Real.sqrt_nonneg _
    simp only [bollinger_bands, if_neg hlt, Option.some.injEq, Prod.mk.injEq] at hb
    obtain ⟨hm, hu, hl⟩ := hb
    constructor
    · rw [← hm, ← hl]; linarith
    · rw [← hm, ← hu]; linarith

/-! ## C3: ordering of the derived prices -/

lemma compute_orders_long (e qv m u l t s : ℚ) :
    compute_orders ⟨"LONG", e, qv⟩ m u l t s =
      { stop_loss_limit :=
          round_step (e - ((max (|u - m| / m * 100) (|m - l| / m * 100)) / 3) / 100 * e) t
        stop_loss_qty := round_step qv s
        take_profit_trigger :=
          round_step (e + ((max (|u - m| / m * 100) (|m - l| / m * 100)) - 1/100) / 100 * e) t
        take_profit_limit :=
          round_step (e + (max (|u - m| / m * 100) (|m - l| / m * 100)) / 100 * e) t
        take_profit_qty := round_step qv s
        x_percent := max (|u - m| / m * 100) (|m - l| / m * 100) } := by
  simp [compute_orders]

lemma compute_orders_short (e qv m u l t s : ℚ) :
    compute_orders ⟨"SHORT", e, qv⟩ m u l t s =
      { stop_loss_limit :=
          round_step (e + ((max (|u - m| / m * 100) (|m - l| / m * 100)) / 3) / 100 * e) t
        stop_loss_qty := round_step qv s
        take_profit_trigger :=
          round_step (e - ((max (|u - m| / m * 100) (|m - l| / m * 100)) - 1/100) / 100 * e) t
        take_profit_limit :=
          round_step (e - (max (|u - m| / m * 100) (|m - l| / m * 100)) / 100 * e) t
        take_profit_qty := round_step qv s
        x_percent := max (|u - m| / m * 100) (|m - l| / m * 100) } := by
  simp [compute_orders]

/-- C3: for every position with positive entry price and every selected
band width x at least 2, the four derived prices keep their ordering, for
LONG stop-loss limit below entry below take-profit trigger at most
take-profit limit, with the escalation trigger at coefficient 0.55 times
x strictly between entry and take-profit trigger, and mirrored for SHORT.
The tick size must be positive and small against the band, 300 times the
tick at most x times the entry, which the deployed tick of 0.01 on
ETHUSDT prices satisfies by a wide margin; without this bound the
truncating quantization of compute_orders could collapse the strict
inequalities. -/
theorem C3_price_ordering (e qv m u l t s x : ℚ)
    (hx : x = max (|u - m| / m * 100) (|m - l| / m * 100))
    (he : 0 < e) (ht : 0 < t) (hx2 : 2 ≤ x) (hts : 300 * t ≤ x * e) :
    ((compute_orders ⟨"LONG", e, qv⟩ m u l t s).stop_loss_limit < e ∧
     e < (compute_orders ⟨"LONG", e, qv⟩ m u l t s).take_profit_trigger ∧
     (compute_orders ⟨"LONG", e, qv⟩ m u l t s).take_profit_trigger ≤
       (compute_orders ⟨"LONG", e, qv⟩ m u l t s).take_profit_limit ∧
     e < trigger_price "LONG" e x ∧
     trigger_price "LONG" e x <
       (compute_orders ⟨"LONG", e, qv⟩ m u l t s).take_profit_trigger) ∧
    (e < (compute_orders ⟨"SHORT", e, qv⟩ m u l t s).stop_loss_limit ∧
     (compute_orders ⟨"SHORT", e, qv⟩ m u l t s).take_profit_trigger < e ∧
     (compute_orders ⟨"SHORT", e, qv⟩ m u l t s).take_profit_limit ≤
       (compute_orders ⟨"SHORT", e, qv⟩ m u l t s).take_profit_trigger ∧
     trigger_price "SHORT" e x < e ∧
     (compute_orders ⟨"SHORT", e, qv⟩ m u l t s).take_profit_trigger <
       trigger_price "SHORT" e x) := by
  rw [compute_orders_long, compute_orders_short, ← hx]
  simp only [trigger_price, eq_self_iff_true, if_true,
    if_neg (show ¬("SHORT" : String) = "LONG" by decide)]
  have hX0 : 0 < x := by linarith
  have hXe : 0 < x * e := mul_pos hX0 he
  have hp1 : 0 ≤ (2 * x - 3/100) * e := mul_nonneg (by linarith) he.le
  have hp2 : 0 ≤ (3500 * x - 300) * e := mul_nonneg (by linarith) he.le
  refine ⟨⟨?_, ?_, ?_, ?_, ?_⟩, ?_, ?_, ?_, ?_, ?_⟩
  · have h := round_step_lt_add (e - (x / 3) / 100 * e) t ht
    linarith
  · have h := sub_lt_round_step (e + (x - 1/100) / 100 * e) t ht
    linarith
  · refine round_step_mono t ht ?_
    linarith
  · linarith
  · have h := sub_lt_round_step (e + (x - 1/100) / 100 * e) t ht
    linarith
  · have h := sub_lt_round_step (e + (x / 3) / 100 * e) t ht
    linarith
  · have h := round_step_lt_add (e - (x - 1/100) / 100 * e) t ht
    linarith
  · refine round_step_mono t ht ?_
    linarith
  · linarith
  · have h := round_step_lt_add (e - (x - 1/100) / 100 * e) t ht
    linarith

/-- Witness for C3 at the end-to-end test vector of the design document:
entry 3000, bands giving width 3 percent, tick 0.01, step 0.001. -/
theorem C3_witness :
    ((compute_orders ⟨"LONG", 3000, 1⟩ 100 103 98 (1/100) (1/1000)).stop_loss_limit < 3000 ∧
     3000 < (compute_orders ⟨"LONG", 3000, 1⟩ 100 103 98 (1/100) (1/1000)).take_profit_trigger ∧
     (compute_orders ⟨"LONG", 3000, 1⟩ 100 103 98 (1/100) (1/1000)).take_profit_trigger ≤
       (compute_orders ⟨"LONG", 3000, 1⟩ 100 103 98 (1/100) (1/1000)).take_profit_limit ∧
     3000 < trigger_price "LONG" 3000 3 ∧
     trigger_price "LONG" 3000 3 <
       (compute_orders ⟨"LONG", 3000, 1⟩ 100 103 98 (1/100) (1/1000)).take_profit_trigger) ∧
    (3000 < (compute_orders ⟨"SHORT", 3000, 1⟩ 100 103 98 (1/100) (1/1000)).stop_loss_limit ∧
     (compute_orders ⟨"SHORT", 3000, 1⟩ 100 103 98 (1/100) (1/1000)).take_profit_trigger < 3000 ∧
     (compute_orders ⟨"SHORT", 3000, 1⟩ 100 103 98 (1/100) (1/1000)).take_profit_limit ≤
       (compute_orders ⟨"SHORT", 3000, 1⟩ 100 103 98 (1/100) (1/1000)).take_profit_trigger ∧
     trigger_price "SHORT" 3000 3 < 3000 ∧
     (compute_orders ⟨"SHORT", 3000, 1⟩ 100 103 98 (1/100) (1/1000)).take_profit_trigger <
       trigger_price "SHORT" 3000 3) := by
  exact C3_price_ordering 3000 1 100 103 98 (1/100) (1/1000) 3
    (by norm_num) (by norm_num) (by norm_num) (by norm_num) (by norm_num)

/-! ## C7: first qualifying timeframe -/

/-- Whether the scan of sizet2.py would stop at a timeframe: bands
present, middle nonzero (the falsy test), and width percent at least 2. -/
def qualifiesB (bands : String → Option (ℚ × ℚ × ℚ)) (tf : String) : Bool :=
  match bands tf with
  | none => false
  | some (m, u, l) =>
    if m = 0 then false
    else decide (2 ≤ max (|u - m| / m * 100) (|m - l| / m * 100))

lemma compute_orders_x_percent (p : Position) (m u l t s : ℚ) :
    (compute_orders p m u l t s).x_percent =
      max (|u - m| / m * 100) (|m - l| / m * 100) := by
  unfold compute_orders
  split <;> rfl

lemma qualifiesB_of_none {bands : String → Option (ℚ × ℚ × ℚ)} {tf : String}
    (hb : bands tf = none) : qualifiesB bands tf = false := by
  simp [qualifiesB, hb]

lemma qualifiesB_of_some {bands : String → Option (ℚ × ℚ × ℚ)} {tf : String}
    {m u l : ℚ} (hb : bands tf = some (m, u, l)) :
    qualifiesB bands tf =
      (if m = 0 then false
       else decide (2 ≤ max (|u - m| / m * 100) (|m - l| / m * 100))) := by
  simp [qualifiesB, hb]

lemma scan_plan_none_iff (p : Position) (bands : String → Option (ℚ × ℚ × ℚ))
    (t s : ℚ) : ∀ L : List String,
    (scan_plan p bands t s L).1 = none ↔ ∀ tf ∈ L, qualifiesB bands tf = false := by
  intro L
  induction L with
  | nil => simp [scan_plan]
  | cons tf rest ih =>
    cases hb : bands tf with
    | none =>
      simp only [scan_plan, hb]
      rw [ih]
      constructor
      · intro h tf2 h2
        rcases List.mem_cons.mp h2 with h3 | h3
        · subst h3; exact qualifiesB_of_none hb
        · exact h tf2 h3
      · intro h tf2 h2
        exact h tf2 (List.mem_cons_of_mem _ h2)
    | some b =>
      obtain ⟨m, u, l⟩ := b
      by_cases hm : m = 0
      · simp only [scan_plan, hb, if_pos hm]
        rw [ih]
        constructor
        · intro h tf2 h2
          rcases List.mem_cons.mp h2 with h3 | h3
          · subst h3; rw [qualifiesB_of_some hb, if_pos hm]
          · exact h tf2 h3
        · intro h tf2 h2
          exact h tf2 (List.mem_cons_of_mem _ h2)
      · by_cases hx : 2 ≤ (compute_orders p m u l t s).x_percent
        · simp only [scan_plan, hb, if_neg hm, if_pos hx]
          constructor
          · intro h; cases h
          · intro h
            have h5 := h tf (List.mem_cons_self _ _)
            rw [qualifiesB_of_some hb, if_neg hm] at h5
            rw [compute_orders_x_percent] at hx
            simp [hx] at h5
        · simp only [scan_plan, hb, if_neg hm, if_neg hx]
          rw [ih]
          constructor
          · intro h tf2 h2
            rcases List.mem_cons.mp h2 with h3 | h3
            · subst h3
              rw [qualifiesB_of_some hb, if_neg hm]
              rw [compute_orders_x_percent] at hx
              simp [hx]
            · exact h tf2 h3
          · intro h tf2 h2
            exact h tf2 (List.mem_cons_of_mem _ h2)

lemma scan_plan_some (p : Position) (bands : String → Option (ℚ × ℚ × ℚ))
    (t s : ℚ) : ∀ (L : List String) (c : Orders),
    (scan_plan p bands t s L).1 = some c →
    ∃ pre tf post, L = pre ++ tf :: post ∧ qualifiesB bands tf = true ∧
      (∀ tf2 ∈ pre, qualifiesB bands tf2 = false) ∧
      ∃ m u l, bands tf = some (m, u, l) ∧ c = compute_orders p m u l t s := by
  intro L
  induction L with
  | nil => intro c h; simp [scan_plan] at h
  | cons tf rest ih =>
    intro c h
    cases hb : bands tf with
    | none =>
      simp only [scan_plan, hb] at h
      obtain ⟨pre, tf2, post, h1, h2, h3, h4⟩ := ih c h
      refine ⟨tf :: pre, tf2, post, by simp [h1], h2, ?_, h4⟩
      intro tf3 h5
      rcases List.mem_cons.mp h5 with h6 | h6
      · subst h6; exact qualifiesB_of_none hb
      · exact h3 tf3 h6
    | some b =>
      obtain ⟨m, u, l⟩ := b
      by_cases hm : m = 0
      · simp only [scan_plan, hb, if_pos hm] at h
        obtain ⟨pre, tf2, post, h1, h2, h3, h4⟩ := ih c h
        refine ⟨tf :: pre, tf2, post, by simp [h1], h2, ?_, h4⟩
        intro tf3 h5
        rcases List.mem_cons.mp h5 with h6 | h6
        · subst h6; rw [qualifiesB_of_some hb, if_pos hm]
        · exact h3 tf3 h6
      · by_cases hx : 2 ≤ (compute_orders p m u l t s).x_percent
        · simp only [scan_plan, hb, if_neg hm, if_pos hx] at h
          simp only [Option.some.injEq] at h
          refine ⟨[], tf, rest, rfl, ?_, by simp, m, u, l, hb, h.symm⟩
          rw [qualifiesB_of_some hb, if_neg hm]
          rw [compute_orders_x_percent] at hx
          simp [hx]
        · simp only [scan_plan, hb, if_neg hm, if_neg hx] at h
          obtain ⟨pre, tf2, post, h1, h2, h3, h4⟩ := ih c h
          refine ⟨tf :: pre, tf2, post, by simp [h1], h2, ?_, h4⟩
          intro tf3 h5
          rcases List.mem_cons.mp h5 with h6 | h6
          · subst h6
            rw [qualifiesB_of_some hb, if_neg hm]
            rw [compute_orders_x_percent] at hx
            simp [hx]
          · exact h3 tf3 h6

lemma scan_plan_calls_fetch (p : Position) (bands : String → Option (ℚ × ℚ × ℚ))
    (t s : ℚ) : ∀ (L : List String) (c : MCall),
    c ∈ (scan_plan p bands t s L).2 → ∃ tf, c = MCall.fetch tf := by
  intro L
  induction L with
  | nil => intro c h; simp [scan_plan] at h
  | cons tf rest ih =>
    intro c h
    cases hb : bands tf with
    | none =>
      simp only [scan_plan, hb] at h
      rcases List.mem_cons.mp h with h2 | h2
      · exact ⟨tf, h2⟩
      · exact ih c h2
    | some b =>
      obtain ⟨m, u, l⟩ := b
      by_cases hm : m = 0
      · simp only [scan_plan, hb, if_pos hm] at h
        rcases List.mem_cons.mp h with h2 | h2
        · exact ⟨tf, h2⟩
        · exact ih c h2
      · by_cases hx : 2 ≤ (compute_orders p m u l t s).x_percent
        · simp only [scan_plan, hb, if_neg hm, if_pos hx] at h
          rcases List.mem_cons.mp h with h2 | h2
          · exact ⟨tf, h2⟩
          · simp at h2
        · simp only [scan_plan, hb, if_neg hm, if_neg hx] at h
          rcases List.mem_cons.mp h with h2 | h2
          · exact ⟨tf, h2⟩
          · exact ih c h2

lemma countP_zero_of_fetch (f : MCall → Bool) (hf : ∀ tf, f (MCall.fetch tf) = false)
    (cs : List MCall) (hcs : ∀ c ∈ cs, ∃ tf, c = MCall.fetch tf) :
    cs.countP f = 0 := by
  rw [List.countP_eq_zero]
  intro c hc
  obtain ⟨tf, rfl⟩ := hcs c hc
  simp [hf]

lemma countP_fetch_map (f : MCall → Bool) (hf : ∀ tf, f (MCall.fetch tf) = false)
    (L : List String) : (L.map MCall.fetch).countP f = 0 := by
  refine countP_zero_of_fetch f hf _ ?_
  intro c hc
  obtain ⟨tf, _, rfl⟩ := List.mem_map.mp hc
  exact ⟨tf, rfl⟩

/-- C7: the order-plan scan walks the fixed list 1m, 3m, 5m, 15m, 30m,
1h, skips timeframes with absent bands (or zero middle), stops at the
first with width percent at least 2 and returns its computed orders,
returns absent exactly when no timeframe qualifies, and an absent plan
on an idle tick with an open position places no orders; for positive
middle the scanned per-band widths coincide with the specification
formula max of the absolute deviations over middle times 100. -/
theorem C7_first_qualifying_timeframe (p : Position)
    (bands : String → Option (ℚ × ℚ × ℚ)) (t s : ℚ) :
    ((scan_plan p bands t s TIMEFRAMES).1 = none ↔
      ∀ tf ∈ TIMEFRAMES, qualifiesB bands tf = false) ∧
    (∀ c, (scan_plan p bands t s TIMEFRAMES).1 = some c →
      ∃ pre tf post, TIMEFRAMES = pre ++ tf :: post ∧
        qualifiesB bands tf = true ∧
        (∀ tf2 ∈ pre, qualifiesB bands tf2 = false) ∧
        ∃ m u l, bands tf = some (m, u, l) ∧ c = compute_orders p m u l t s) ∧
    (∀ o : MgrOracle, o.pos = PosResp.opened p → o.bands = bands →
      (scan_plan p bands t s TIMEFRAMES).1 = none →
      countSL (managerTick false o t s).2 = 0 ∧
      countTP (managerTick false o t s).2 = 0 ∧
      (managerTick false o t s).1 = false) ∧
    (∀ m u l : ℚ, 0 < m →
      max (|u - m| / m * 100) (|m - l| / m * 100) =
        max (|u - m|) (|m - l|) / m * 100) := by
  refine ⟨scan_plan_none_iff p bands t s TIMEFRAMES,
    scan_plan_some p bands t s TIMEFRAMES, ?_, ?_⟩
  · intro o h1 h2 h3
    have hsl : ∀ tf, isStopLimitCall (MCall.fetch tf) = false := fun _ => rfl
    have htp : ∀ tf, isLimitCall (MCall.fetch tf) = false := fun _ => rfl
    simp only [managerTick, h1, h2, h3, Bool.false_eq_true, if_false]
    refine ⟨?_, ?_, by trivial⟩
    · simp only [countSL, List.countP_append]
      rw [countP_fetch_map _ hsl,
        countP_zero_of_fetch _ hsl _ (scan_plan_calls_fetch p bands t s TIMEFRAMES)]
      rfl
    · simp only [countTP, List.countP_append]
      rw [countP_fetch_map _ htp,
        countP_zero_of_fetch _ htp _ (scan_plan_calls_fetch p bands t s TIMEFRAMES)]
      rfl
  · intro m u l hm
    rw [← max_div_div_right hm.le, ← max_mul_of_nonneg _ _ (by norm_num : (0:ℚ) ≤ 100)]

/-- Witness for C7: with every band absent, the scan yields no plan. -/
theorem C7_witness :
    (scan_plan ⟨"LONG", 100, 1⟩ (fun _ => none) (1/100) (1/1000) TIMEFRAMES).1 = none := by
  exact (C7_first_qualifying_timeframe ⟨"LONG", 100, 1⟩ (fun _ => none)
    (1/100) (1/1000)).1.mpr (fun tf _ => rfl)

/-! ## C1: at most one PROTECTED entry, two placements per entry -/

lemma tick_true_opened (o : MgrOracle) (t s : ℚ) (p : Position)
    (h : o.pos = PosResp.opened p) :
    managerTick true o t s = (true, TIMEFRAMES.map MCall.fetch ++ [MCall.getPos]) := by
  simp [managerTick, h]

lemma tick_false_opened_none (o : MgrOracle) (t s : ℚ) (p : Position)
    (h : o.pos = PosResp.opened p)
    (hn : (scan_plan p o.bands t s TIMEFRAMES).1 = none) :
    (managerTick false o t s).1 = false ∧
    countSL (managerTick false o t s).2 = 0 ∧
    countTP (managerTick false o t s).2 = 0 := by
  have hsl : ∀ tf, isStopLimitCall (MCall.fetch tf) = false := fun _ => rfl
  have htp : ∀ tf, isLimitCall (MCall.fetch tf) = false := fun _ => rfl
  simp only [managerTick, h, hn, Bool.false_eq_true, if_false]
  refine ⟨by trivial, ?_, ?_⟩
  · simp only [countSL, List.countP_append]
    rw [countP_fetch_map _ hsl,
      countP_zero_of_fetch _ hsl _ (scan_plan_calls_fetch p o.bands t s TIMEFRAMES)]
    rfl
  · simp only [countTP, List.countP_append]
    rw [countP_fetch_map _ htp,
      countP_zero_of_fetch _ htp _ (scan_plan_calls_fetch p o.bands t s TIMEFRAMES)]
    rfl

lemma tick_false_opened_some (o : MgrOracle) (t s : ℚ) (p : Position) (c : Orders)
    (h : o.pos = PosResp.opened p)
    (hc : (scan_plan p o.bands t s TIMEFRAMES).1 = some c) :
    (managerTick false o t s).1 = true ∧
    countSL (managerTick false o t s).2 = 1 ∧
    countTP (managerTick false o t s).2 = 1 := by
  have hsl : ∀ tf, isStopLimitCall (MCall.fetch tf) = false := fun _ => rfl
  have htp : ∀ tf, isLimitCall (MCall.fetch tf) = false := fun _ => rfl
  simp only [managerTick, h, hc, Bool.false_eq_true, if_false]
  refine ⟨by trivial, ?_, ?_⟩
  · simp only [countSL, List.countP_append]
    rw [countP_fetch_map _ hsl,
      countP_zero_of_fetch _ hsl _ (scan_plan_calls_fetch p o.bands t s TIMEFRAMES)]
    simp [List.countP_cons, isStopLimitCall]
  · simp only [countTP, List.countP_append]
    rw [countP_fetch_map _ htp,
      countP_zero_of_fetch _ htp _ (scan_plan_calls_fetch p o.bands t s TIMEFRAMES)]
    simp [List.countP_cons, isLimitCall]

lemma managerRun_true_open (t s : ℚ) : ∀ os : List MgrOracle,
    (∀ o ∈ os, ∃ p, o.pos = PosResp.opened p) →
    (managerRun t s true os).1 = true ∧
    countSL (managerRun t s true os).2 = 0 ∧
    countTP (managerRun t s true os).2 = 0 ∧
    mgrEntries t s true os = 0 := by
  intro os
  induction os with
  | nil => intro _; exact ⟨rfl, rfl, rfl, rfl⟩
  | cons o os ih =>
    intro h
    obtain ⟨p, hp⟩ := h o (List.mem_cons_self _ _)
    have htick := tick_true_opened o t s p hp
    obtain ⟨ih1, ih2, ih3, ih4⟩ := ih (fun o2 h2 => h o2 (List.mem_cons_of_mem _ h2))
    have hsl : ∀ tf, isStopLimitCall (MCall.fetch tf) = false := fun _ => rfl
    have htp : ∀ tf, isLimitCall (MCall.fetch tf) = false := fun _ => rfl
    have hg1 : List.countP isStopLimitCall [MCall.getPos] = 0 := rfl
    have hg2 : List.countP isLimitCall [MCall.getPos] = 0 := rfl
    refine ⟨?_, ?_, ?_, ?_⟩
    · simp only [managerRun, htick]; exact ih1
    · simp only [managerRun, htick, countSL, List.countP_append]
      rw [countP_fetch_map _ hsl, hg1]
      simp only [countSL] at ih2
      omega
    · simp only [managerRun, htick, countTP, List.countP_append]
      rw [countP_fetch_map _ htp, hg2]
      simp only [countTP] at ih3
      omega
    · simp only [mgrEntries, htick]
      simpa using ih4

lemma managerRun_false_open (t s : ℚ) : ∀ os : List MgrOracle,
    (∀ o ∈ os, ∃ p, o.pos = PosResp.opened p) →
    mgrEntries t s false os ≤ 1 ∧
    countSL (managerRun t s false os).2 = mgrEntries t s false os ∧
    countTP (managerRun t s false os).2 = mgrEntries t s false os := by
  intro os
  induction os with
  | nil => intro _; exact ⟨by simp [mgrEntries], rfl, rfl⟩
  | cons o os ih =>
    intro h
    obtain ⟨p, hp⟩ := h o (List.mem_cons_self _ _)
    have htail : ∀ o2 ∈ os, ∃ p2, o2.pos = PosResp.opened p2 :=
      fun o2 h2 => h o2 (List.mem_cons_of_mem _ h2)
    cases hsc : (scan_plan p o.bands t s TIMEFRAMES).1 with
    | none =>
      obtain ⟨ht1, ht2, ht3⟩ := tick_false_opened_none o t s p hp hsc
      obtain ⟨ih1, ih2, ih3⟩ := ih htail
      refine ⟨?_, ?_, ?_⟩
      · simp only [mgrEntries, ht1]
        simpa using ih1
      · simp only [managerRun, countSL, List.countP_append, mgrEntries, ht1,
          Bool.false_eq_true, and_false, if_false, eq_self_iff_true, true_and]
        simp only [countSL] at ht2 ih2
        omega
      · simp only [managerRun, countTP, List.countP_append, mgrEntries, ht1,
          Bool.false_eq_true, and_false, if_false, eq_self_iff_true, true_and]
        simp only [countTP] at ht3 ih3
        omega
    | some c =>
      obtain ⟨ht1, ht2, ht3⟩ := tick_false_opened_some o t s p c hp hsc
      obtain ⟨rt1, rt2, rt3, rt4⟩ := managerRun_true_open t s os htail
      refine ⟨?_, ?_, ?_⟩
      · simp only [mgrEntries, ht1]
        simp [rt4]
      · simp only [managerRun, countSL, List.countP_append, mgrEntries, ht1,
          eq_self_iff_true, and_self, if_true]
        simp only [countSL] at ht2 rt2
        omega
      · simp only [managerRun, countTP, List.countP_append, mgrEntries, ht1,
          eq_self_iff_true, and_self, if_true]
        simp only [countTP] at ht3 rt3
        omega

/-- C1: across any sequence of poll ticks during which the observed
position stays continuously open, the manager moves from unset to set
orders_placed at most once, exactly one stop-limit and one limit
placement call are made per such entry so at most one pair overall, and
a run starting with orders_placed already set keeps it set and places
nothing. -/
theorem C1_protected_once (t s : ℚ) (os : List MgrOracle)
    (h : ∀ o ∈ os, ∃ p, o.pos = PosResp.opened p) :
    mgrEntries t s false os ≤ 1 ∧
    countSL (managerRun t s false os).2 = mgrEntries t s false os ∧
    countTP (managerRun t s false os).2 = mgrEntries t s false os ∧
    (managerRun t s true os).1 = true ∧
    countSL (managerRun t s true os).2 = 0 ∧
    countTP (managerRun t s true os).2 = 0 := by
  obtain ⟨h1, h2, h3⟩ := managerRun_false_open t s os h
  obtain ⟨h4, h5, h6, _⟩ := managerRun_true_open t s os h
  exact ⟨h1, h2, h3, h4, h5, h6⟩

/-- Concrete position and oracle used by the C1 witness: an open LONG
position with a qualifying one-minute band on every tick. -/
def c1Pos : Position := ⟨"LONG", 3000, 1⟩

def c1Bands : String → Option (ℚ × ℚ × ℚ) :=
  fun tf => if tf = "1m" then some (100, 103, 98) else none

def c1Oracle : MgrOracle :=
  { pos := PosResp.opened c1Pos, bands := c1Bands,
    stopAccepted := true, tpAccepted := true }

/-- Witness for C1 on a concrete two-tick run with a continuously open
position. -/
theorem C1_witness :
    mgrEntries (1/100) (1/1000) false [c1Oracle, c1Oracle] ≤ 1 ∧
    countSL (managerRun (1/100) (1/1000) false [c1Oracle, c1Oracle]).2 =
      mgrEntries (1/100) (1/1000) false [c1Oracle, c1Oracle] ∧
    countTP (managerRun (1/100) (1/1000) false [c1Oracle, c1Oracle]).2 =
      mgrEntries (1/100) (1/1000) false [c1Oracle, c1Oracle] ∧
    (managerRun (1/100) (1/1000) true [c1Oracle, c1Oracle]).1 = true ∧
    countSL (managerRun (1/100) (1/1000) true [c1Oracle, c1Oracle]).2 = 0 ∧
    countTP (managerRun (1/100) (1/1000) true [c1Oracle, c1Oracle]).2 = 0 := by
  refine C1_protected_once (1/100) (1/1000) [c1Oracle, c1Oracle] ?_
  intro o ho
  rcases List.mem_cons.mp ho with h1 | h1
  · exact ⟨c1Pos, by rw [h1]; rfl⟩
  · rcases List.mem_cons.mp h1 with h2 | h2
    · exact ⟨c1Pos, by rw [h2]; rfl⟩
    · cases h2

/-- Witness for C6 at concrete inputs: a 199-element list yields absent,
and on a 200-element list the returned band is ordered. -/
theorem C6_witness :
    bollinger_bands (List.replicate 199 (5 : ℝ)) = none ∧
    ∀ m u l, bollinger_bands (List.replicate 200 (5 : ℝ)) = some (m, u, l) →
      l ≤ m ∧ m ≤ u := by
  constructor
  · exact (C6_bollinger_bands_spec _).1 (by rw [List.length_replicate]; norm_num)
  · exact ((C6_bollinger_bands_spec (List.replicate 200 (5 : ℝ))).2
      (by rw [List.length_replicate])).2.2

/-! ## C4: PROTECTED is entered without checking order acceptance -/

/-- Concrete tick oracle on which both protective order placements are
rejected by the exchange. -/
def c4Oracle : MgrOracle :=
  { pos := PosResp.opened ⟨"LONG", 3000, 1⟩,
    bands := fun tf => if tf = "1m" then some (100, 103, 98) else none,
    stopAccepted := false, tpAccepted := false }

lemma c4_scan_eval :
    (scan_plan ⟨"LONG", 3000, 1⟩ c4Oracle.bands (1/100) (1/1000) TIMEFRAMES).1 =
      some (compute_orders ⟨"LONG", 3000, 1⟩ 100 103 98 (1/100) (1/1000)) := by
  have hb : c4Oracle.bands "1m" = some ((100:ℚ), (103:ℚ), (98:ℚ)) := rfl
  rw [show TIMEFRAMES = "1m" :: ["3m", "5m", "15m", "30m", "1h"] from rfl]
  simp only [scan_plan, hb]
  rw [if_neg (show ¬(100:ℚ) = 0 by norm_num)]
  rw [compute_orders_x_percent]
  rw [if_pos (show (2:ℚ) ≤ max ((|(103:ℚ) - 100|)/100*100) ((|(100:ℚ) - 98|)/100*100) by norm_num)]

/-- Counterexample for C4: on a tick where the exchange rejects both
protective orders, the manager still sets orders_placed, entering
PROTECTED without both orders accepted. -/
theorem C4_counterexample :
    (managerTick false c4Oracle (1/100) (1/1000)).1 = true ∧
    c4Oracle.stopAccepted = false ∧ c4Oracle.tpAccepted = false := by
  refine ⟨?_, rfl, rfl⟩
  exact (tick_false_opened_some c4Oracle (1/100) (1/1000) ⟨"LONG", 3000, 1⟩
    (compute_orders ⟨"LONG", 3000, 1⟩ 100 103 98 (1/100) (1/1000)) rfl c4_scan_eval).1

/-- C4 amended: the tick transition is entirely independent of the
exchange outcomes of the two placements, and whenever the scan finds a
plan for an open position the flag ends the tick set, so PROTECTED is
entered unconditionally after issuing the two placement calls. -/
theorem C4_amended (st : Bool) (pr : PosResp)
    (bands : String → Option (ℚ × ℚ × ℚ)) (t s : ℚ) (a b a2 b2 : Bool) :
    managerTick st ⟨pr, bands, a, b⟩ t s = managerTick st ⟨pr, bands, a2, b2⟩ t s ∧
    (∀ p c, pr = PosResp.opened p →
      (scan_plan p bands t s TIMEFRAMES).1 = some c →
      (managerTick st ⟨pr, bands, a, b⟩ t s).1 = true) := by
  constructor
  · rfl
  · intro p c hpr hc
    subst hpr
    cases st with
    | true => rfl
    | false =>
      exact (tick_false_opened_some ⟨PosResp.opened p, bands, a, b⟩ t s p c rfl hc).1

/-- Witness for C4 amended at the concrete rejected-orders oracle. -/
theorem C4_amended_witness :
    managerTick false ⟨c4Oracle.pos, c4Oracle.bands, false, false⟩ (1/100) (1/1000) =
      managerTick false ⟨c4Oracle.pos, c4Oracle.bands, true, true⟩ (1/100) (1/1000) ∧
    (managerTick false ⟨c4Oracle.pos, c4Oracle.bands, false, false⟩ (1/100) (1/1000)).1 = true := by
  refine ⟨(C4_amended false c4Oracle.pos c4Oracle.bands (1/100) (1/1000) false false true true).1, ?_⟩
  exact (C4_amended false c4Oracle.pos c4Oracle.bands (1/100) (1/1000) false false true true).2
    ⟨"LONG", 3000, 1⟩ (compute_orders ⟨"LONG", 3000, 1⟩ 100 103 98 (1/100) (1/1000))
    rfl c4_scan_eval

/-! ## C8: no position re-read before placement -/

lemma tick_reads_position_once (st : Bool) (o : MgrOracle) (t s : ℚ) :
    countGetPos (managerTick st o t s).2 = 1 := by
  have hf : ∀ tf, isGetPosCall (MCall.fetch tf) = false := fun _ => rfl
  cases hp : o.pos with
  | err =>
    simp only [managerTick, hp, countGetPos, List.countP_append]
    rw [countP_fetch_map _ hf]
    rfl
  | flat =>
    cases st with
    | true =>
      simp only [managerTick, hp, if_true, countGetPos, List.countP_append]
      rw [countP_fetch_map _ hf]
      rfl
    | false =>
      simp only [managerTick, hp, Bool.false_eq_true, if_false, countGetPos,
        List.countP_append]
      rw [countP_fetch_map _ hf]
      rfl
  | opened p =>
    cases st with
    | true =>
      simp only [managerTick, hp, if_true, countGetPos, List.countP_append]
      rw [countP_fetch_map _ hf]
      rfl
    | false =>
      cases hsc : (scan_plan p o.bands t s TIMEFRAMES).1 with
      | none =>
        simp only [managerTick, hp, hsc, Bool.false_eq_true, if_false,
          countGetPos, List.countP_append]
        rw [countP_fetch_map _ hf,
          countP_zero_of_fetch _ hf _ (scan_plan_calls_fetch p o.bands t s TIMEFRAMES)]
        rfl
      | some c =>
        simp only [managerTick, hp, hsc, Bool.false_eq_true, if_false,
          countGetPos, List.countP_append]
        rw [countP_fetch_map _ hf,
          countP_zero_of_fetch _ hf _ (scan_plan_calls_fetch p o.bands t s TIMEFRAMES)]
        rfl

/-- C8 amended: every poll tick issues exactly one position read, at the
start of the tick; in particular no tick re-reads the position between
the qualifying computation and order placement, so a position flip in
that window goes undetected and orders are placed from the single
snapshot. -/
theorem C8_single_position_read (st : Bool) (o : MgrOracle) (t s : ℚ) :
    countGetPos (managerTick st o t s).2 = 1 :=
  tick_reads_position_once st o t s

/-- Concrete oracle for the C8 counterexample, identical in shape to the
rejected-orders one but named apart: qualifying band on 1m, open LONG
position. -/
def c8Oracle : MgrOracle :=
  { pos := PosResp.opened ⟨"LONG", 3000, 1⟩,
    bands := fun tf => if tf = "1m" then some (100, 103, 98) else none,
    stopAccepted := true, tpAccepted := true }

lemma c8_scan_eval :
    (scan_plan ⟨"LONG", 3000, 1⟩ c8Oracle.bands (1/100) (1/1000) TIMEFRAMES).1 =
      some (compute_orders ⟨"LONG", 3000, 1⟩ 100 103 98 (1/100) (1/1000)) := by
  have hb : c8Oracle.bands "1m" = some ((100:ℚ), (103:ℚ), (98:ℚ)) := rfl
  rw [show TIMEFRAMES = "1m" :: ["3m", "5m", "15m", "30m", "1h"] from rfl]
  simp only [scan_plan, hb]
  rw [if_neg (show ¬(100:ℚ) = 0 by norm_num)]
  rw [compute_orders_x_percent]
  rw [if_pos (show (2:ℚ) ≤ max ((|(103:ℚ) - 100|)/100*100) ((|(100:ℚ) - 98|)/100*100) by norm_num)]

/-- Counterexample for C8: a tick that places both protective orders
contains exactly one position read, not the second immediately-before-
placement read the claim describes, so no size mismatch can be detected
there. -/
theorem C8_counterexample :
    countSL (managerTick false c8Oracle (1/100) (1/1000)).2 = 1 ∧
    countGetPos (managerTick false c8Oracle (1/100) (1/1000)).2 = 1 ∧
    ¬ 2 ≤ countGetPos (managerTick false c8Oracle (1/100) (1/1000)).2 := by
  have h1 := (tick_false_opened_some c8Oracle (1/100) (1/1000) ⟨"LONG", 3000, 1⟩
    (compute_orders ⟨"LONG", 3000, 1⟩ 100 103 98 (1/100) (1/1000)) rfl c8_scan_eval).2.1
  have h2 := tick_reads_position_once false c8Oracle (1/100) (1/1000)
  exact ⟨h1, h2, by omega⟩

/-! ## C9: cancellation precedes plan computation -/

/-- Concrete oracle for the C9 counterexample: open position but no band
ever qualifies (all absent). -/
def c9Oracle : MgrOracle :=
  { pos := PosResp.opened ⟨"LONG", 3000, 1⟩,
    bands := fun _ => none,
    stopAccepted := true, tpAccepted := true }

lemma c9_scan_none :
    (scan_plan ⟨"LONG", 3000, 1⟩ c9Oracle.bands (1/100) (1/1000) TIMEFRAMES).1 = none := by
  exact (scan_plan_none_iff _ _ _ _ TIMEFRAMES).mpr (fun tf _ => rfl)

/-- Counterexample for C9: on an idle tick with an open position where no
timeframe qualifies, the manager still cancels all open orders, and no
placement follows in that tick, contradicting both the only-with-a-plan
gating of cancellation and the claim that a no-plan tick performs no
cancellation. -/
theorem C9_counterexample :
    countCancel (managerTick false c9Oracle (1/100) (1/1000)).2 = 1 ∧
    countSL (managerTick false c9Oracle (1/100) (1/1000)).2 = 0 ∧
    countTP (managerTick false c9Oracle (1/100) (1/1000)).2 = 0 := by
  have hf : ∀ tf, isCancelCall (MCall.fetch tf) = false := fun _ => rfl
  refine ⟨?_, (tick_false_opened_none c9Oracle (1/100) (1/1000) ⟨"LONG", 3000, 1⟩
    rfl c9_scan_none).2.1,
    (tick_false_opened_none c9Oracle (1/100) (1/1000) ⟨"LONG", 3000, 1⟩
    rfl c9_scan_none).2.2⟩
  simp only [managerTick, show c9Oracle.pos = PosResp.opened ⟨"LONG", 3000, 1⟩ from rfl,
    c9_scan_none, Bool.false_eq_true, if_false, countCancel, List.countP_append]
  rw [countP_fetch_map _ hf,
    countP_zero_of_fetch _ hf _ (scan_plan_calls_fetch _ _ _ _ TIMEFRAMES)]
  rfl

/-- C9 amended: on every idle tick with an open position the manager
cancels all open orders for the symbol first and only then scans for a
plan, so cancellation also happens when no timeframe qualifies; when a
plan is found both placements follow in the same tick directly after the
scan fetches, and the tick that observes the position flat while
protected also cancels. -/
theorem C9_amended (o : MgrOracle) (t s : ℚ) :
    (∀ p, o.pos = PosResp.opened p →
      countCancel (managerTick false o t s).2 = 1 ∧
      ((scan_plan p o.bands t s TIMEFRAMES).1 = none →
        (managerTick false o t s).2 =
          TIMEFRAMES.map MCall.fetch ++ [MCall.getPos, MCall.cancelAll] ++
            (scan_plan p o.bands t s TIMEFRAMES).2) ∧
      (∀ c, (scan_plan p o.bands t s TIMEFRAMES).1 = some c →
        (managerTick false o t s).2 =
          TIMEFRAMES.map MCall.fetch ++ [MCall.getPos, MCall.cancelAll] ++
            (scan_plan p o.bands t s TIMEFRAMES).2 ++
            [MCall.placeStopLimit (if p.side = "LONG" then "SELL" else "BUY")
               c.stop_loss_qty c.stop_loss_limit,
             MCall.placeLimit (if p.side = "LONG" then "SELL" else "BUY")
               c.take_profit_qty c.take_profit_limit,
             MCall.spawnWatcher p.entry_price c.x_percent p.side])) ∧
    (o.pos = PosResp.flat →
      (managerTick true o t s).2 =
        TIMEFRAMES.map MCall.fetch ++ [MCall.getPos, MCall.cancelAll]) := by
  have hf : ∀ tf, isCancelCall (MCall.fetch tf) = false := fun _ => rfl
  constructor
  · intro p hp
    refine ⟨?_, ?_, ?_⟩
    · cases hsc : (scan_plan p o.bands t s TIMEFRAMES).1 with
      | none =>
        simp only [managerTick, hp, hsc, Bool.false_eq_true, if_false,
          countCancel, List.countP_append]
        rw [countP_fetch_map _ hf,
          countP_zero_of_fetch _ hf _ (scan_plan_calls_fetch p o.bands t s TIMEFRAMES)]
        rfl
      | some c =>
        simp only [managerTick, hp, hsc, Bool.false_eq_true, if_false,
          countCancel, List.countP_append]
        rw [countP_fetch_map _ hf,
          countP_zero_of_fetch _ hf _ (scan_plan_calls_fetch p o.bands t s TIMEFRAMES)]
        rfl
    · intro hsc
      simp only [managerTick, hp, hsc, Bool.false_eq_true, if_false]
    · intro c hsc
      simp only [managerTick, hp, hsc, Bool.false_eq_true, if_false]
  · intro hp
    simp only [managerTick, hp, if_true]

/-- Witness for C9 amended at the all-absent-bands oracle. -/
theorem C9_amended_witness :
    countCancel (managerTick false c9Oracle (1/100) (1/1000)).2 = 1 ∧
    (managerTick false c9Oracle (1/100) (1/1000)).2 =
      TIMEFRAMES.map MCall.fetch ++ [MCall.getPos, MCall.cancelAll] ++
        (scan_plan ⟨"LONG", 3000, 1⟩ c9Oracle.bands (1/100) (1/1000) TIMEFRAMES).2 := by
  have h := (C9_amended c9Oracle (1/100) (1/1000)).1 ⟨"LONG", 3000, 1⟩ rfl
  exact ⟨h.1, h.2.1 c9_scan_none⟩

/-! ## Watcher run lemmas -/

lemma watcherStep_stopped (tk sp trg : ℚ) (st : WState) (ev : WEvent)
    (h : st.stopRequested = true) :
    watcherStep tk sp trg st ev = { state := st, calls := [], flatExit := false } := by
  simp [watcherStep, h]

lemma watcherRun_stopped (tk sp trg : ℚ) : ∀ (evs : List WEvent) (st : WState),
    st.stopRequested = true → watcherRun tk sp trg st evs = (st, []) := by
  intro evs
  induction evs with
  | nil => intro st _; rfl
  | cons ev evs ih =>
    intro st h
    simp only [watcherRun, watcherStep_stopped tk sp trg st ev h]
    simp [ih st h]

lemma watcherRun_append (tk sp trg : ℚ) : ∀ (l1 l2 : List WEvent) (st : WState),
    watcherRun tk sp trg st (l1 ++ l2) =
      ((watcherRun tk sp trg (watcherRun tk sp trg st l1).1 l2).1,
       (watcherRun tk sp trg st l1).2 ++
         (watcherRun tk sp trg (watcherRun tk sp trg st l1).1 l2).2) := by
  intro l1
  induction l1 with
  | nil => intro l2 st; rfl
  | cons ev l1 ih =>
    intro l2 st
    rw [List.cons_append]
    simp only [watcherRun]
    rw [ih l2]
    simp [List.append_assoc]

lemma watcherStep_noncross (tk sp trg : ℚ) (st : WState) (ev : WEvent) (q : ℚ)
    (hst : st.stopRequested = false) (hq : ev.pos = some q) (hq0 : ¬ q = 0)
    (hnc : crossesB trg ev = false) :
    watcherStep tk sp trg st ev =
      { state := { cache := q, stopRequested := false },
        calls := [WCall.queryPos], flatExit := false } := by
  have hobs : ev.pos.getD st.cache = q := by rw [hq]; rfl
  have hc : ¬ ((0 < q ∧ trg < ev.close) ∨ (q < 0 ∧ ev.close < trg)) := by
    simpa [crossesB, hq] using hnc
  rw [watcherStep, if_neg (by rw [hst]; exact Bool.false_ne_true), hobs,
    if_neg hq0, if_neg (fun h => hc (Or.inl h)), if_neg (fun h => hc (Or.inr h))]
  rw [hst]

lemma watcherStep_cross (tk sp trg : ℚ) (st : WState) (ev : WEvent) (q : ℚ)
    (hst : st.stopRequested = false) (hq : ev.pos = some q)
    (hcr : crossesB trg ev = true) :
    (watcherStep tk sp trg st ev).state =
      { cache := q, stopRequested := ev.accepted } ∧
    countStops (watcherStep tk sp trg st ev).calls = 1 := by
  have hobs : ev.pos.getD st.cache = q := by rw [hq]; rfl
  have hc : (0 < q ∧ trg < ev.close) ∨ (q < 0 ∧ ev.close < trg) := by
    simpa [crossesB, hq] using hcr
  have hq0 : ¬ q = 0 := by
    rcases hc with ⟨h1, _⟩ | ⟨h1, _⟩
    · exact fun h => by rw [h] at h1; exact lt_irrefl 0 h1
    · exact fun h => by rw [h] at h1; exact lt_irrefl 0 h1
  rcases hc with h1 | h1
  · rw [watcherStep, if_neg (by rw [hst]; exact Bool.false_ne_true), hobs,
      if_neg hq0, if_pos h1]
    exact ⟨rfl, rfl⟩
  · have hnl : ¬ (0 < q ∧ trg < ev.close) := fun h2 => absurd h1.1 (not_lt.mpr h2.1.le)
    rw [watcherStep, if_neg (by rw [hst]; exact Bool.false_ne_true), hobs,
      if_neg hq0, if_neg hnl, if_pos h1]
    exact ⟨rfl, rfl⟩

lemma watcherRun_noncross_prefix (tk sp trg : ℚ) : ∀ (l1 : List WEvent) (st : WState),
    st.stopRequested = false →
    (∀ ev ∈ l1, ∃ q, ev.pos = some q ∧ ¬ q = 0 ∧ crossesB trg ev = false) →
    (watcherRun tk sp trg st l1).1.stopRequested = false ∧
    countStops (watcherRun tk sp trg st l1).2 = 0 := by
  intro l1
  induction l1 with
  | nil => intro st h _; exact ⟨h, rfl⟩
  | cons ev l1 ih =>
    intro st hst h
    obtain ⟨q, hq, hq0, hnc⟩ := h ev (List.mem_cons_self _ _)
    have hstep := watcherStep_noncross tk sp trg st ev q hst hq hq0 hnc
    have ihr := ih { cache := q, stopRequested := false } rfl
      (fun e2 h2 => h e2 (List.mem_cons_of_mem _ h2))
    simp only [watcherRun, hstep]
    refine ⟨ihr.1, ?_⟩
    have h2 := ihr.2
    have hq1 : List.countP isStopMarketCall [WCall.queryPos] = 0 := rfl
    simp only [countStops, List.countP_append, hq1] at h2 ⊢
    omega

/-! ## C2: the escalation one-shot holds only on acceptance -/

/-- Counterexample for C2: with trigger derived from entry 100 and width
2 for LONG, the first candle event crosses the trigger but the exchange
rejects the stop-market order; because stop_requested stays unset,
run_bot reconnects and the watcher places a second order call on the
next crossing event, so the one-shot regardless-of-outcome claim fails. -/
theorem C2_counterexample :
    crossesB (trigger_price "LONG" 100 2)
      { close := 102, pos := some 1, accepted := false } = true ∧
    countStops (run_bot (1/100) (1/1000) (trigger_price "LONG" 100 2) (some 1)
      [{ close := 102, pos := some 1, accepted := false },
       { close := 102, pos := some 1, accepted := true }]).2 = 2 := by
  have htr : trigger_price "LONG" 100 2 = 1011/10 := by
    rw [trigger_price, if_pos rfl]; norm_num
  constructor
  · rw [crossesB]
    simp only [htr]
    norm_num
  · have h1 : watcherStep (1/100) (1/1000) (trigger_price "LONG" 100 2)
        { cache := 1, stopRequested := false }
        { close := 102, pos := some 1, accepted := false } =
        { state := { cache := 1, stopRequested := false },
          calls := [WCall.queryPos, WCall.stopMarket "SELL"
            (round_step 1 (1/1000)) (round_step (trigger_price "LONG" 100 2) (1/100))],
          flatExit := false } := by
      rw [watcherStep, if_neg Bool.false_ne_true]
      rw [show (Option.getD (some (1:ℚ)) (1:ℚ)) = 1 from rfl]
      rw [if_neg (by norm_num : ¬(1:ℚ) = 0), if_pos (by rw [htr]; norm_num)]
    have h2 : watcherStep (1/100) (1/1000) (trigger_price "LONG" 100 2)
        { cache := 1, stopRequested := false }
        { close := 102, pos := some 1, accepted := true } =
        { state := { cache := 1, stopRequested := true },
          calls := [WCall.queryPos, WCall.stopMarket "SELL"
            (round_step 1 (1/1000)) (round_step (trigger_price "LONG" 100 2) (1/100))],
          flatExit := false } := by
      rw [watcherStep, if_neg Bool.false_ne_true]
      rw [show (Option.getD (some (1:ℚ)) (1:ℚ)) = 1 from rfl]
      rw [if_neg (by norm_num : ¬(1:ℚ) = 0), if_pos (by rw [htr]; norm_num)]
    rw [run_bot, if_neg (by norm_num : ¬ (Option.getD (some (1:ℚ)) 0) = 0)]
    simp only [Option.getD_some]
    simp only [watcherRun, h1, h2]
    simp [countStops, List.countP_cons, List.countP_append, isStopMarketCall]

/-- C2 amended: on a stream whose events before the first crossing all
report an open position and no crossing, the watcher issues no order
call before the crossing event and exactly one on it; if the exchange
accepts that order the watcher stops, issuing no further call of any
kind on later events, while a rejected order leaves stop_requested unset
so the reconnect loop resumes listening. -/
theorem C2_one_shot_on_acceptance (tk sp trg : ℚ) (st : WState)
    (l1 : List WEvent) (e : WEvent) (l2 : List WEvent)
    (hst : st.stopRequested = false)
    (hl1 : ∀ ev ∈ l1, ∃ q, ev.pos = some q ∧ ¬ q = 0 ∧ crossesB trg ev = false)
    (he : crossesB trg e = true) :
    countStops (watcherRun tk sp trg st l1).2 = 0 ∧
    countStops (watcherRun tk sp trg st (l1 ++ [e])).2 = 1 ∧
    (e.accepted = true →
      (watcherRun tk sp trg st (l1 ++ e :: l2)).2 =
        (watcherRun tk sp trg st (l1 ++ [e])).2) := by
  obtain ⟨hpre1, hpre2⟩ := watcherRun_noncross_prefix tk sp trg l1 st hst hl1
  have hq : ∃ q, e.pos = some q := by
    rcases hp : e.pos with _ | q
    · rw [crossesB, hp] at he; cases he
    · exact ⟨q, rfl⟩
  obtain ⟨q, hq⟩ := hq
  have hcross := watcherStep_cross tk sp trg (watcherRun tk sp trg st l1).1 e q
    hpre1 hq he
  refine ⟨hpre2, ?_, ?_⟩
  · rw [watcherRun_append tk sp trg l1 [e] st]
    simp only [countStops, List.countP_append]
    simp only [countStops] at hpre2 hcross
    have : (watcherRun tk sp trg (watcherRun tk sp trg st l1).1 [e]).2 =
        (watcherStep tk sp trg (watcherRun tk sp trg st l1).1 e).calls ++ [] := rfl
    rw [this]
    simp only [List.countP_append]
    have h0 : List.countP isStopMarketCall ([] : List WCall) = 0 := rfl
    have hc2 := hcross.2
    omega
  · intro hacc
    have hstop : (watcherStep tk sp trg (watcherRun tk sp trg st l1).1 e).state.stopRequested = true := by
      rw [hcross.1, hacc]
    have heq : l1 ++ e :: l2 = (l1 ++ [e]) ++ l2 := by simp
    rw [heq, watcherRun_append tk sp trg (l1 ++ [e]) l2 st]
    have hstate : (watcherRun tk sp trg st (l1 ++ [e])).1.stopRequested = true := by
      rw [watcherRun_append tk sp trg l1 [e] st]
      have : (watcherRun tk sp trg (watcherRun tk sp trg st l1).1 [e]).1 =
          (watcherStep tk sp trg (watcherRun tk sp trg st l1).1 e).state := rfl
      rw [this]
      exact hstop
    rw [watcherRun_stopped tk sp trg l2 _ hstate]
    simp

/-- Witness for C2 amended: one non-crossing event, then an accepted
crossing event, then a trailing event that is ignored. -/
theorem C2_one_shot_witness :
    countStops (watcherRun (1/100) (1/1000) (trigger_price "LONG" 100 2)
      { cache := 1, stopRequested := false }
      [{ close := 50, pos := some 1, accepted := false }]).2 = 0 ∧
    countStops (watcherRun (1/100) (1/1000) (trigger_price "LONG" 100 2)
      { cache := 1, stopRequested := false }
      ([{ close := 50, pos := some 1, accepted := false }] ++
        [{ close := 102, pos := some 1, accepted := true }])).2 = 1 ∧
    ((({ close := 102, pos := some 1, accepted := true } : WEvent)).accepted = true →
      (watcherRun (1/100) (1/1000) (trigger_price "LONG" 100 2)
        { cache := 1, stopRequested := false }
        ([{ close := 50, pos := some 1, accepted := false }] ++
          { close := 102, pos := some 1, accepted := true } ::
            [{ close := 200, pos := some 1, accepted := true }])).2 =
      (watcherRun (1/100) (1/1000) (trigger_price "LONG" 100 2)
        { cache := 1, stopRequested := false }
        ([{ close := 50, pos := some 1, accepted := false }] ++
          [{ close := 102, pos := some 1, accepted := true }])).2) := by
  have htr : trigger_price "LONG" 100 2 = 1011/10 := by
    rw [trigger_price, if_pos rfl]; norm_num
  refine C2_one_shot_on_acceptance (1/100) (1/1000) (trigger_price "LONG" 100 2)
    { cache := 1, stopRequested := false }
    [{ close := 50, pos := some 1, accepted := false }]
    { close := 102, pos := some 1, accepted := true }
    [{ close := 200, pos := some 1, accepted := true }]
    rfl ?_ ?_
  · intro ev hev
    rcases List.mem_cons.mp hev with h1 | h1
    · refine ⟨1, by rw [h1], by norm_num, ?_⟩
      rw [h1, crossesB]
      simp only [htr]
      norm_num
    · cases h1
  · rw [crossesB]
    simp only [htr]
    norm_num

/-! ## C5: the observed-flat branch does not terminate the watcher -/

/-- C5 evaluation at the failing input: the first candle event observes a
flat position, on_message prints Position closed Exiting and closes the
socket, yet stop_requested is still unset so run_bot reconnects; the
second event is processed (its position query happens) and, the position
having reappeared and crossed, a stop-market order is even placed.  The
claim that the watcher terminates on an observed-flat event and
processes no further candle events fails on this trace. -/
theorem C5_flat_does_not_terminate :
    (watcherStep (1/100) (1/1000) (trigger_price "LONG" 100 2)
      { cache := 1, stopRequested := false }
      { close := 50, pos := some 0, accepted := false }).flatExit = true ∧
    countQueries (watcherRun (1/100) (1/1000) (trigger_price "LONG" 100 2)
      { cache := 1, stopRequested := false }
      [{ close := 50, pos := some 0, accepted := false },
       { close := 102, pos := some 3, accepted := true }]).2 = 2 ∧
    countStops (watcherRun (1/100) (1/1000) (trigger_price "LONG" 100 2)
      { cache := 1, stopRequested := false }
      [{ close := 50, pos := some 0, accepted := false },
       { close := 102, pos := some 3, accepted := true }]).2 = 1 := by
  have htr : trigger_price "LONG" 100 2 = 1011/10 := by
    rw [trigger_price, if_pos rfl]; norm_num
  have h1 : watcherStep (1/100) (1/1000) (trigger_price "LONG" 100 2)
      { cache := 1, stopRequested := false }
      { close := 50, pos := some 0, accepted := false } =
      { state := { cache := 1, stopRequested := false },
        calls := [WCall.queryPos], flatExit := true } := by
    rw [watcherStep, if_neg Bool.false_ne_true]
    rw [show (Option.getD (some (0:ℚ)) (1:ℚ)) = 0 from rfl]
    rw [if_pos rfl]
  have h2 : watcherStep (1/100) (1/1000) (trigger_price "LONG" 100 2)
      { cache := 1, stopRequested := false }
      { close := 102, pos := some 3, accepted := true } =
      { state := { cache := 3, stopRequested := true },
        calls := [WCall.queryPos, WCall.stopMarket "SELL"
          (round_step 3 (1/1000)) (round_step (trigger_price "LONG" 100 2) (1/100))],
        flatExit := false } := by
    rw [watcherStep, if_neg Bool.false_ne_true]
    rw [show (Option.getD (some (3:ℚ)) (1:ℚ)) = 3 from rfl]
    rw [if_neg (by norm_num : ¬(3:ℚ) = 0), if_pos (by rw [htr]; norm_num)]
  refine ⟨by rw [h1], ?_, ?_⟩
  · simp only [watcherRun, h1, h2]
    simp [countQueries, List.countP_cons, List.countP_append, isQueryCall]
  · simp only [watcherRun, h1, h2]
    simp [countStops, List.countP_cons, List.countP_append, isStopMarketCall]

/-! ## C10: transient query failure never looks flat -/

lemma watcherStep_cache_ne (tk sp trg : ℚ) (st : WState) (ev : WEvent)
    (h : ¬ st.cache = 0) : ¬ (watcherStep tk sp trg st ev).state.cache = 0 := by
  by_cases h1 : st.stopRequested
  · rw [watcherStep_stopped tk sp trg st ev h1]
    exact h
  · have h1f : st.stopRequested = false := by
      cases hb : st.stopRequested
      · rfl
      · exact absurd hb h1
    by_cases h2 : (ev.pos.getD st.cache) = 0
    · rw [watcherStep, if_neg (by rw [h1f]; exact Bool.false_ne_true), if_pos h2]
      exact h
    · by_cases h3 : 0 < ev.pos.getD st.cache ∧ trg < ev.close
      · rw [watcherStep, if_neg (by rw [h1f]; exact Bool.false_ne_true), if_neg h2,
          if_pos h3]
        exact h2
      · by_cases h4 : ev.pos.getD st.cache < 0 ∧ ev.close < trg
        · rw [watcherStep, if_neg (by rw [h1f]; exact Bool.false_ne_true), if_neg h2,
            if_neg h3, if_pos h4]
          exact h2
        · rw [watcherStep, if_neg (by rw [h1f]; exact Bool.false_ne_true), if_neg h2,
            if_neg h3, if_neg h4]
          exact h2

lemma watcherRun_cache_ne (tk sp trg : ℚ) : ∀ (evs : List WEvent) (st : WState),
    ¬ st.cache = 0 → ¬ (watcherRun tk sp trg st evs).1.cache = 0 := by
  intro evs
  induction evs with
  | nil => intro st h; exact h
  | cons ev evs ih =>
    intro st h
    simp only [watcherRun]
    exact ih _ (watcherStep_cache_ne tk sp trg st ev h)

lemma watcherStep_no_flatExit_on_failure (tk sp trg : ℚ) (st : WState)
    (ev : WEvent) (hc : ¬ st.cache = 0) (hp : ev.pos = none) :
    (watcherStep tk sp trg st ev).flatExit = false := by
  by_cases h1 : st.stopRequested
  · rw [watcherStep_stopped tk sp trg st ev h1]
  · have h1f : st.stopRequested = false := by
      cases hb : st.stopRequested
      · rfl
      · exact absurd hb h1
    have hobs : ev.pos.getD st.cache = st.cache := by rw [hp]; rfl
    by_cases h3 : 0 < ev.pos.getD st.cache ∧ trg < ev.close
    · rw [watcherStep, if_neg (by rw [h1f]; exact Bool.false_ne_true),
        if_neg (by rw [hobs]; exact hc), if_pos h3]
    · by_cases h4 : ev.pos.getD st.cache < 0 ∧ ev.close < trg
      · rw [watcherStep, if_neg (by rw [h1f]; exact Bool.false_ne_true),
          if_neg (by rw [hobs]; exact hc), if_neg h3, if_pos h4]
      · rw [watcherStep, if_neg (by rw [h1f]; exact Bool.false_ne_true),
          if_neg (by rw [hobs]; exact hc), if_neg h3, if_neg h4]

/-- C10: when the watcher starts on a nonzero position and the position
query of the i-th candle event raises (oracle none), get_position falls
back to the cached quantity, which is never zero in any reachable state,
so the event is not observed as flat and the position-closed exit branch
of on_message does not run on that event. -/
theorem C10_cached_on_failure (tk sp trg q0 : ℚ) (events : List WEvent)
    (i : ℕ) (hq : ¬ q0 = 0) (hi : i < events.length)
    (hp : (events.get ⟨i, hi⟩).pos = none) :
    ¬ (watcherRun tk sp trg { cache := q0, stopRequested := false }
        (events.take i)).1.cache = 0 ∧
    ((events.get ⟨i, hi⟩).pos.getD
      (watcherRun tk sp trg { cache := q0, stopRequested := false }
        (events.take i)).1.cache) =
      (watcherRun tk sp trg { cache := q0, stopRequested := false }
        (events.take i)).1.cache ∧
    (watcherStep tk sp trg
      (watcherRun tk sp trg { cache := q0, stopRequested := false }
        (events.take i)).1 (events.get ⟨i, hi⟩)).flatExit = false := by
  have hc := watcherRun_cache_ne tk sp trg (events.take i)
    { cache := q0, stopRequested := false } hq
  exact ⟨hc, by rw [hp]; rfl,
    watcherStep_no_flatExit_on_failure tk sp trg _ _ hc hp⟩

/-- Witness for C10 at a single-event stream whose query fails. -/
theorem C10_witness :
    ¬ (watcherRun (1/100) (1/1000) (trigger_price "LONG" 100 2)
        { cache := 1, stopRequested := false }
        (([{ close := 50, pos := none, accepted := false }] : List WEvent).take 0)).1.cache = 0 ∧
    ((([{ close := 50, pos := none, accepted := false }] : List WEvent).get
        ⟨0, by norm_num⟩).pos.getD
      (watcherRun (1/100) (1/1000) (trigger_price "LONG" 100 2)
        { cache := 1, stopRequested := false }
        (([{ close := 50, pos := none, accepted := false }] : List WEvent).take 0)).1.cache) =
      (watcherRun (1/100) (1/1000) (trigger_price "LONG" 100 2)
        { cache := 1, stopRequested := false }
        (([{ close := 50, pos := none, accepted := false }] : List WEvent).take 0)).1.cache ∧
    (watcherStep (1/100) (1/1000) (trigger_price "LONG" 100 2)
      (watcherRun (1/100) (1/1000) (trigger_price "LONG" 100 2)
        { cache := 1, stopRequested := false }
        (([{ close := 50, pos := none, accepted := false }] : List WEvent).take 0)).1
      (([{ close := 50, pos := none, accepted := false }] : List WEvent).get
        ⟨0, by norm_num⟩)).flatExit = false := by
  exact C10_cached_on_failure (1/100) (1/1000) (trigger_price "LONG" 100 2) 1
    [{ close := 50, pos := none, accepted := false }] 0 (by norm_num) (by norm_num) rfl
